import Mathlib

/-!
Verification of the windowed CPU-load computation in
`src/draw_cpu_cpp/src/main.cpp` (`calculate_one_slice`, `Executor`,
`calculate_cpu_load`).

Modelling conventions.

* `int64_t` is embedded as `ℤ`.  No arithmetic in the checked claims comes
  near the 64-bit range, so wrap-around is not modelled.
* `float` is embedded as `ℚ`: the accumulations are modelled with exact
  arithmetic.
* A `std::vector<float>` load row is embedded as a total map `ℤ → ℚ` from
  window index to accumulated value; the separate range analysis
  (`touchedWindows`) shows which cells the loop writes and that the checked
  `at(w)` access stays in bounds.
* The worker threads only partition work by cpu id: each executor owns one
  row and drains its FIFO queue, and `calculate_cpu_load` joins them all
  before the merge pass.  The net effect is the sequential fold of
  `calculate_one_slice` over each cpu's tasks in submission order, which is
  how the executor pool is embedded here.
* C++ `/` on `int64_t` truncates toward zero while `/` on `ℤ` below is
  Euclidean division; every division performed by the program has a
  non-negative numerator and a positive denominator, where the two (and
  flooring) coincide.
-/

/-- Ceiling division as in the source: `(a + b - 1) / b` (`main.cpp` 21-23).
Every call site passes `0 < a` and `0 < b`. -/
def ceil_div (a b : ℤ) : ℤ := (a + b - 1) / b

/-- The window-spec record `TraceDetail` (`main.cpp` 25-30), as filled in by
`calculate_cpu_load` before the workers start. -/
structure TraceDetail where
  trace_duration_ns : ℤ
  window_size_ns : ℤ
  window_step_ns : ℤ
  num_windows : ℤ
deriving DecidableEq

/-- The list `[a, a+1, …, b]` (empty when `b < a`): index set of the loop
`for (w = i_start; w <= i_end; ++w)`. -/
def intRange (a b : ℤ) : List ℤ :=
  (List.range (b + 1 - a).toNat).map (fun k : ℕ => a + (k : ℤ))

/-- First candidate window index: `0` when `start_ns < window_size_ns`, else
`ceil_div (start_ns - window_size_ns + 1) window_step_ns` (`main.cpp` 48-54). -/
def i_start_of (d : TraceDetail) (s : ℤ) : ℤ :=
  if s < d.window_size_ns then 0
  else ceil_div (s - d.window_size_ns + 1) d.window_step_ns

/-- Last candidate window index: `(end_ns - 1) / window_step_ns`
(`main.cpp` 56). -/
def i_end_of (d : TraceDetail) (e : ℤ) : ℤ := (e - 1) / d.window_step_ns

/-- The window indices the accumulation loop of `calculate_one_slice` visits:
the early returns, interval clamp, index formulas and index clamps of
`main.cpp` 38-62. -/
def touchedWindows (d : TraceDetail) (start_ns end_ns : ℤ) : List ℤ :=
  if d.trace_duration_ns ≤ start_ns ∨ end_ns ≤ 0 then []
  else
    let s := max 0 start_ns
    let e := min d.trace_duration_ns end_ns
    if e ≤ s then []
    else
      let i_start := max 0 (i_start_of d s)
      let i_end := min (i_end_of d e) (d.num_windows - 1)
      if i_end < i_start then [] else intRange i_start i_end

/-- Loop body of `calculate_one_slice` (`main.cpp` 64-76): the value added to
`result[w]` for a clamped interval `[s, e)`, namely the overlap with the
window span scaled by `100 / window_size_ns` (and `0` when the overlap is
empty, the `continue` branch). -/
def windowContribution (d : TraceDetail) (s e w : ℤ) : ℚ :=
  let window_start := w * d.window_step_ns
  let window_end := window_start + d.window_size_ns
  let overlap_start := max s window_start
  let overlap_end := min e window_end
  if overlap_end ≤ overlap_start then 0
  else ((overlap_end - overlap_start : ℤ) : ℚ) / (d.window_size_ns : ℚ) * 100

/-- Shallow embedding of `calculate_one_slice` (`main.cpp` 34-77): add the
per-window overlap contributions of one slice into the row. -/
def calculate_one_slice (d : TraceDetail) (start_ns end_ns : ℤ)
    (result : ℤ → ℚ) : ℤ → ℚ :=
  let s := max 0 start_ns
  let e := min d.trace_duration_ns end_ns
  (touchedWindows d start_ns end_ns).foldl
    (fun buf w => Function.update buf w (buf w + windowContribution d s e w)) result

/-- Net effect of one slice on one cell of the row (derived form used by the
theorems below). -/
def sliceContribution (d : TraceDetail) (start_ns end_ns w : ℤ) : ℚ :=
  if w ∈ touchedWindows d start_ns end_ns then
    windowContribution d (max 0 start_ns) (min d.trace_duration_ns end_ns) w
  else 0

/-- `*std::max_element(l.begin(), l.end())` for a nonempty list
(`main.cpp` 165); the `[]` case is never reached behind the emptiness guard. -/
def listMax : List ℤ → ℤ
  | [] => 0
  | x :: xs => xs.foldl max x

/-- `num_windows` as computed in `main.cpp` 176-177. -/
def num_windows_calc (trace_duration_ns window_size_ns window_step_ns : ℤ) : ℤ :=
  1 + (if window_size_ns ≤ trace_duration_ns then
        (trace_duration_ns - window_size_ns) / window_step_ns
      else 0)

/-- The `TraceDetail` value stored into the global `g_detail`
(`main.cpp` 182). -/
def traceDetailOf (trace_duration_ns window_size_ns window_step_ns : ℤ) : TraceDetail :=
  ⟨trace_duration_ns, window_size_ns, window_step_ns,
    num_windows_calc trace_duration_ns window_size_ns window_step_ns⟩

/-- The input interval records `((start, end), cpu)` in input order. -/
def slices (slice_start_ns slice_end_ns ucpu_id : List ℤ) :
    List ((ℤ × ℤ) × ℤ) :=
  (slice_start_ns.zip slice_end_ns).zip ucpu_id

/-- The tasks routed to the executor of one cpu row by the dispatch loop
`executors[ucpu_id[i]]->add_task(...)` (`main.cpp` 192-194), in submission
order (each executor queue is FIFO). -/
def tasksFor (slice_start_ns slice_end_ns ucpu_id : List ℤ) (cpu : ℤ) :
    List (ℤ × ℤ) :=
  (slices slice_start_ns slice_end_ns ucpu_id).filterMap
    (fun t => if t.2 = cpu then some t.1 else none)

/-- One executor's row after its queue is drained (`main.cpp` 117-134,
179, 200-202): the fold of `calculate_one_slice` over its tasks starting
from the all-zero row. -/
def cpuRow (d : TraceDetail) (tasks : List (ℤ × ℤ)) : ℤ → ℚ :=
  tasks.foldl (fun buf t => calculate_one_slice d t.1 t.2 buf) (fun _ => 0)

/-- All per-cpu rows of the result: one executor per index
`0 … max_cpu_id` (`main.cpp` 186-190). -/
def cpuRowsOf (slice_start_ns slice_end_ns ucpu_id : List ℤ)
    (trace_duration_ns window_size_ns window_step_ns : ℤ) : List (ℤ → ℚ) :=
  (List.range (listMax ucpu_id + 1).toNat).map
    (fun k : ℕ => cpuRow (traceDetailOf trace_duration_ns window_size_ns window_step_ns)
      (tasksFor slice_start_ns slice_end_ns ucpu_id (k : ℤ)))

/-- Merge pass (`main.cpp` 204-213): per window, sum the (already
percentage-valued) cpu rows, clamp at `window_size_ns * num_cpus`, divide by
`window_size_ns * num_cpus` and scale by `100`. -/
def aggregateRow (rows : List (ℤ → ℚ)) (window_size_ns num_cpus : ℤ) : ℤ → ℚ :=
  fun w =>
    let accumulated := (rows.map (fun row => row w)).sum
    let full_window : ℚ := ((window_size_ns * num_cpus : ℤ) : ℚ)
    min accumulated full_window / full_window * 100

/-- Timestamp row: `result[num_cpus + 1][w] = w * window_step_ns`
(`main.cpp` 196-199). -/
def timestampRow (window_step_ns : ℤ) : ℤ → ℚ :=
  fun w => ((w * window_step_ns : ℤ) : ℚ)

/-- Shallow embedding of the entry point `calculate_cpu_load`
(`main.cpp` 154-216): validation guards in source order, then the
per-cpu rows, the aggregate row and the timestamp row. -/
def calculate_cpu_load (slice_start_ns slice_end_ns ucpu_id : List ℤ)
    (trace_duration_ns window_size_ns window_step_ns : ℤ) : List (ℤ → ℚ) :=
  if slice_start_ns = [] ∨ slice_start_ns.length ≠ slice_end_ns.length
      ∨ slice_start_ns.length ≠ ucpu_id.length then []
  else if 32 < listMax ucpu_id then []
  else if window_step_ns ≤ 0 ∨ window_size_ns ≤ 0 ∨ trace_duration_ns ≤ 0 then []
  else
    let rows := cpuRowsOf slice_start_ns slice_end_ns ucpu_id
      trace_duration_ns window_size_ns window_step_ns
    rows ++ [aggregateRow rows window_size_ns (listMax ucpu_id + 1),
      timestampRow window_step_ns]

/-- The all-zero row, used as the out-of-range default when reading the
result grid. -/
def zeroRow : ℤ → ℚ := fun _ => 0

/-- Raw overlap, in nanoseconds, between one input interval (clamped to the
trace exactly as in `main.cpp` 38-44) and the span of window `w`; `0` for an
interval wholly outside the trace.  This is the `raw overlap_ns` quantity the
specification's aggregate and clamping sentences are phrased in. -/
def rawOverlapNs (d : TraceDetail) (start_ns end_ns w : ℤ) : ℤ :=
  if d.trace_duration_ns ≤ start_ns ∨ end_ns ≤ 0 then 0
  else
    let s := max 0 start_ns
    let e := min d.trace_duration_ns end_ns
    max 0 (min e (w * d.window_step_ns + d.window_size_ns) - max s (w * d.window_step_ns))

/-- Sum of raw overlap nanoseconds of a task list at window `w`. -/
def rawSum (d : TraceDetail) (tasks : List (ℤ × ℤ)) (w : ℤ) : ℤ :=
  (tasks.map (fun t => rawOverlapNs d t.1 t.2 w)).sum

/-- Raw overlap nanoseconds accumulated over every input interval (all cpus)
at window `w`. -/
def totalRawNs (slice_start_ns slice_end_ns : List ℤ)
    (trace_duration_ns window_size_ns window_step_ns : ℤ) (w : ℤ) : ℤ :=
  rawSum (traceDetailOf trace_duration_ns window_size_ns window_step_ns)
    (slice_start_ns.zip slice_end_ns) w

/-- Aggregate value exactly as the specification words it:
`min(sum over CPUs of raw overlap_ns, window_size_ns * num_cpus) /
(window_size_ns * num_cpus) * 100` (with the code's cpu count
`max_cpu_id + 1`). -/
def specAggregate (slice_start_ns slice_end_ns ucpu_id : List ℤ)
    (trace_duration_ns window_size_ns window_step_ns : ℤ) (w : ℤ) : ℚ :=
  let full : ℚ := ((window_size_ns * (listMax ucpu_id + 1) : ℤ) : ℚ)
  min ((totalRawNs slice_start_ns slice_end_ns
        trace_duration_ns window_size_ns window_step_ns w : ℤ) : ℚ) full / full * 100

/-- Number of distinct cpu identifiers in the input, the row count the
specification's dense-compaction policy predicts. -/
def distinctCpuCount (ucpu_id : List ℤ) : ℕ := ucpu_id.dedup.length

/-- Pool-indexing safety of the routing loop `executors[ucpu_id[i]]`
(`main.cpp` 192-194): every identifier is a valid index into the pool of
`max_cpu_id + 1` executors. -/
def routingIndexOk (ucpu_id : List ℤ) : Prop :=
  ∀ id ∈ ucpu_id, 0 ≤ id ∧ id < listMax ucpu_id + 1

instance (ucpu_id : List ℤ) : Decidable (routingIndexOk ucpu_id) :=
  List.decidableBAll _ ucpu_id

/-! ### Basic lemmas -/

theorem mem_intRange {a b w : ℤ} : w ∈ intRange a b ↔ a ≤ w ∧ w ≤ b := by
  unfold intRange
  rw [List.mem_map]
  constructor
  · rintro ⟨k, hk, rfl⟩
    rw [List.mem_range] at hk
    omega
  · intro h
    exact ⟨(w - a).toNat, List.mem_range.mpr (by omega), by omega⟩

theorem ceil_div_le_iff {a b w : ℤ} (hb : 0 < b) : ceil_div a b ≤ w ↔ a ≤ w * b := by
  unfold ceil_div
  constructor
  · intro h
    by_contra hc
    push_neg at hc
    have h3 : w + 1 ≤ (a + b - 1) / b := by
      apply (Int.le_ediv_iff_mul_le hb).mpr
      have : (w + 1) * b = w * b + b := by ring
      omega
    omega
  · intro h
    have h2 : ¬ (w + 1 ≤ (a + b - 1) / b) := by
      intro hcon
      have h3 : (w + 1) * b ≤ a + b - 1 := (Int.le_ediv_iff_mul_le hb).mp hcon
      have : (w + 1) * b = w * b + b := by ring
      omega
    omega

theorem le_ediv_iff {x b w : ℤ} (hb : 0 < b) : w ≤ x / b ↔ w * b ≤ x :=
  Int.le_ediv_iff_mul_le hb

theorem touchedWindows_def (d : TraceDetail) (S E : ℤ) :
    touchedWindows d S E =
      if d.trace_duration_ns ≤ S ∨ E ≤ 0 then []
      else if min d.trace_duration_ns E ≤ max 0 S then []
      else if min (i_end_of d (min d.trace_duration_ns E)) (d.num_windows - 1)
          < max 0 (i_start_of d (max 0 S)) then []
      else intRange (max 0 (i_start_of d (max 0 S)))
        (min (i_end_of d (min d.trace_duration_ns E)) (d.num_windows - 1)) := rfl

theorem windowContribution_def (d : TraceDetail) (s e w : ℤ) :
    windowContribution d s e w =
      if min e (w * d.window_step_ns + d.window_size_ns) ≤ max s (w * d.window_step_ns) then 0
      else ((min e (w * d.window_step_ns + d.window_size_ns)
          - max s (w * d.window_step_ns) : ℤ) : ℚ) / (d.window_size_ns : ℚ) * 100 := rfl

theorem calculate_one_slice_def (d : TraceDetail) (S E : ℤ) (buf : ℤ → ℚ) :
    calculate_one_slice d S E buf =
      (touchedWindows d S E).foldl
        (fun b w => Function.update b w
          (b w + windowContribution d (max 0 S) (min d.trace_duration_ns E) w)) buf := rfl

theorem rawOverlapNs_def (d : TraceDetail) (S E w : ℤ) :
    rawOverlapNs d S E w =
      if d.trace_duration_ns ≤ S ∨ E ≤ 0 then 0
      else max 0 (min (min d.trace_duration_ns E) (w * d.window_step_ns + d.window_size_ns)
        - max (max 0 S) (w * d.window_step_ns)) := rfl

theorem foldl_update_apply (f : ℤ → ℚ) :
    ∀ (l : List ℤ) (buf : ℤ → ℚ) (v : ℤ),
      (l.foldl (fun b w => Function.update b w (b w + f w)) buf) v
        = buf v + (l.map (fun w => if w = v then f w else 0)).sum
  | [], buf, v => by simp
  | w₀ :: l, buf, v => by
    simp only [List.foldl_cons, List.map_cons, List.sum_cons]
    rw [foldl_update_apply f l _ v]
    by_cases h : v = w₀
    · rw [h, Function.update_same, if_pos rfl]
      ring
    · rw [Function.update_noteq h, if_neg (fun hh => h hh.symm)]
      ring

theorem sum_ite_of_nodup (f : ℤ → ℚ) :
    ∀ (l : List ℤ), l.Nodup → ∀ v : ℤ,
      ((l.map (fun w => if w = v then f w else 0)).sum)
        = if v ∈ l then f v else 0
  | [], _, v => by simp
  | w₀ :: l, h, v => by
    rw [List.nodup_cons] at h
    simp only [List.map_cons, List.sum_cons, List.mem_cons]
    rw [sum_ite_of_nodup f l h.2 v]
    by_cases hv : v = w₀
    · rw [hv, if_pos rfl, if_neg h.1, if_pos (Or.inl rfl)]
      ring
    · rw [if_neg (fun hh => hv hh.symm)]
      by_cases hm : v ∈ l
      · rw [if_pos hm, if_pos (Or.inr hm)]
        ring
      · rw [if_neg hm, if_neg (by rintro (h1 | h2); exact hv h1; exact hm h2)]
        ring

theorem intRange_nodup (a b : ℤ) : (intRange a b).Nodup := by
  unfold intRange
  exact (List.nodup_range _).map (fun x y h => by omega)

theorem touchedWindows_nodup (d : TraceDetail) (S E : ℤ) :
    (touchedWindows d S E).Nodup := by
  rw [touchedWindows_def]
  split_ifs <;> first | exact List.nodup_nil | exact intRange_nodup _ _

theorem calculate_one_slice_apply (d : TraceDetail) (S E : ℤ) (buf : ℤ → ℚ)
    (v : ℤ) :
    calculate_one_slice d S E buf v = buf v + sliceContribution d S E v := by
  rw [calculate_one_slice_def, sliceContribution]
  rw [foldl_update_apply (fun w => windowContribution d (max 0 S) (min d.trace_duration_ns E) w)]
  rw [sum_ite_of_nodup _ _ (touchedWindows_nodup d S E)]

theorem range_iff_overlap (d : TraceDetail) (hsize : 0 < d.window_size_ns)
    (hstep : 0 < d.window_step_ns) {s e w : ℤ} (hs : 0 ≤ s) (hse : s < e)
    (hw0 : 0 ≤ w) :
    (i_start_of d s ≤ w ∧ w ≤ i_end_of d e) ↔
      max s (w * d.window_step_ns) < min e (w * d.window_step_ns + d.window_size_ns) := by
  have hws : 0 ≤ w * d.window_step_ns := mul_nonneg hw0 (le_of_lt hstep)
  unfold i_start_of i_end_of
  have hend : w ≤ (e - 1) / d.window_step_ns ↔ w * d.window_step_ns ≤ e - 1 :=
    le_ediv_iff hstep
  by_cases hb : s < d.window_size_ns
  · rw [if_pos hb]
    omega
  · rw [if_neg hb]
    have hcl : ceil_div (s - d.window_size_ns + 1) d.window_step_ns ≤ w ↔
        s - d.window_size_ns + 1 ≤ w * d.window_step_ns := ceil_div_le_iff hstep
    omega

theorem mem_touchedWindows (d : TraceDetail) (hsize : 0 < d.window_size_ns)
    (hstep : 0 < d.window_step_ns) {s e w : ℤ} (hs : 0 ≤ s) (hse : s < e)
    (he : e ≤ d.trace_duration_ns) (hw0 : 0 ≤ w) (hwn : w ≤ d.num_windows - 1) :
    (w ∈ touchedWindows d s e ↔
      max s (w * d.window_step_ns) < min e (w * d.window_step_ns + d.window_size_ns)) := by
  rw [touchedWindows_def]
  rw [if_neg (by omega : ¬ (d.trace_duration_ns ≤ s ∨ e ≤ 0))]
  rw [max_eq_right hs, min_eq_right he]
  rw [if_neg (by omega : ¬ e ≤ s)]
  have hrange := range_iff_overlap d hsize hstep hs hse hw0
  by_cases hc : min (i_end_of d e) (d.num_windows - 1) < max 0 (i_start_of d s)
  · rw [if_pos hc]
    simp only [List.not_mem_nil, false_iff]
    omega
  · rw [if_neg hc]
    rw [mem_intRange]
    omega

theorem touchedWindows_clamp (d : TraceDetail) (S E : ℤ)
    (hg : ¬ (d.trace_duration_ns ≤ S ∨ E ≤ 0)) :
    touchedWindows d S E = touchedWindows d (max 0 S) (min d.trace_duration_ns E) := by
  rw [touchedWindows_def, touchedWindows_def]
  have h1 : max 0 (max 0 S) = max 0 S := by omega
  have h2 : min d.trace_duration_ns (min d.trace_duration_ns E)
      = min d.trace_duration_ns E := by omega
  rw [h1, h2, if_neg hg]
  by_cases hse : min d.trace_duration_ns E ≤ max 0 S
  · rw [if_pos hse]
    by_cases hg2 : d.trace_duration_ns ≤ max 0 S ∨ min d.trace_duration_ns E ≤ 0
    · rw [if_pos hg2]
    · rw [if_neg hg2]
  · rw [if_neg hse]
    rw [if_neg (by omega : ¬ (d.trace_duration_ns ≤ max 0 S ∨ min d.trace_duration_ns E ≤ 0))]

theorem mem_touchedWindows_iff (d : TraceDetail) (hsize : 0 < d.window_size_ns)
    (hstep : 0 < d.window_step_ns) (S E w : ℤ) (hw0 : 0 ≤ w)
    (hwn : w ≤ d.num_windows - 1) :
    w ∈ touchedWindows d S E ↔
      max (max 0 S) (w * d.window_step_ns)
        < min (min d.trace_duration_ns E) (w * d.window_step_ns + d.window_size_ns) := by
  have hws : 0 ≤ w * d.window_step_ns := mul_nonneg hw0 (le_of_lt hstep)
  by_cases hg : d.trace_duration_ns ≤ S ∨ E ≤ 0
  · rw [touchedWindows_def, if_pos hg]
    simp only [List.not_mem_nil, false_iff]
    omega
  · by_cases hse : min d.trace_duration_ns E ≤ max 0 S
    · rw [touchedWindows_def, if_neg hg, if_pos hse]
      simp only [List.not_mem_nil, false_iff]
      omega
    · have hs : (0:ℤ) ≤ max 0 S := le_max_left _ _
      have hse' : max 0 S < min d.trace_duration_ns E := by omega
      have he : min d.trace_duration_ns E ≤ d.trace_duration_ns := min_le_left _ _
      rw [touchedWindows_clamp d S E hg]
      exact mem_touchedWindows d hsize hstep hs hse' he hw0 hwn

theorem sliceContribution_eq_raw (d : TraceDetail) (hsize : 0 < d.window_size_ns)
    (hstep : 0 < d.window_step_ns) (S E w : ℤ) (hw0 : 0 ≤ w)
    (hwn : w ≤ d.num_windows - 1) :
    sliceContribution d S E w
      = (rawOverlapNs d S E w : ℚ) / (d.window_size_ns : ℚ) * 100 := by
  have hws : 0 ≤ w * d.window_step_ns := mul_nonneg hw0 (le_of_lt hstep)
  unfold sliceContribution
  rw [rawOverlapNs_def]
  by_cases hg : d.trace_duration_ns ≤ S ∨ E ≤ 0
  · rw [if_pos hg]
    have ht : touchedWindows d S E = [] := by rw [touchedWindows_def, if_pos hg]
    rw [ht]
    simp
  · rw [if_neg hg]
    by_cases hov : max (max 0 S) (w * d.window_step_ns)
        < min (min d.trace_duration_ns E) (w * d.window_step_ns + d.window_size_ns)
    · rw [if_pos ((mem_touchedWindows_iff d hsize hstep S E w hw0 hwn).mpr hov)]
      rw [windowContribution_def]
      rw [if_neg (by omega)]
      have hmx : max 0 (min (min d.trace_duration_ns E)
            (w * d.window_step_ns + d.window_size_ns)
          - max (max 0 S) (w * d.window_step_ns))
          = min (min d.trace_duration_ns E) (w * d.window_step_ns + d.window_size_ns)
            - max (max 0 S) (w * d.window_step_ns) := by omega
      rw [hmx]
    · rw [if_neg (fun hmem => hov
        ((mem_touchedWindows_iff d hsize hstep S E w hw0 hwn).mp hmem))]
      have hmx : max 0 (min (min d.trace_duration_ns E)
            (w * d.window_step_ns + d.window_size_ns)
          - max (max 0 S) (w * d.window_step_ns)) = 0 := by omega
      rw [hmx]
      simp

theorem foldl_slices_apply (d : TraceDetail) :
    ∀ (tasks : List (ℤ × ℤ)) (buf : ℤ → ℚ) (v : ℤ),
      (tasks.foldl (fun b t => calculate_one_slice d t.1 t.2 b) buf) v
        = buf v + (tasks.map (fun t => sliceContribution d t.1 t.2 v)).sum
  | [], buf, v => by simp
  | t :: ts, buf, v => by
    simp only [List.foldl_cons, List.map_cons, List.sum_cons]
    rw [foldl_slices_apply d ts _ v, calculate_one_slice_apply]
    ring

theorem cpuRow_eq_sum (d : TraceDetail) (tasks : List (ℤ × ℤ)) (v : ℤ) :
    cpuRow d tasks v = (tasks.map (fun t => sliceContribution d t.1 t.2 v)).sum := by
  unfold cpuRow
  rw [foldl_slices_apply]
  rw [zero_add]

theorem sum_map_div_mul {α : Type} (g : α → ℤ) (c : ℚ) :
    ∀ (l : List α), (l.map (fun t => ((g t : ℤ) : ℚ) / c * 100)).sum
      = (((l.map g).sum : ℤ) : ℚ) / c * 100
  | [] => by simp
  | t :: ts => by
    simp only [List.map_cons, List.sum_cons]
    rw [sum_map_div_mul g c ts]
    push_cast
    ring

theorem cpuRow_eq_rawSum (d : TraceDetail) (hsize : 0 < d.window_size_ns)
    (hstep : 0 < d.window_step_ns) (tasks : List (ℤ × ℤ)) (w : ℤ) (hw0 : 0 ≤ w)
    (hwn : w ≤ d.num_windows - 1) :
    cpuRow d tasks w = ((rawSum d tasks w : ℤ) : ℚ) / (d.window_size_ns : ℚ) * 100 := by
  rw [cpuRow_eq_sum]
  unfold rawSum
  rw [← sum_map_div_mul (fun t : ℤ × ℤ => rawOverlapNs d t.1 t.2 w) ((d.window_size_ns : ℚ))]
  have hfun : (fun t : ℤ × ℤ => sliceContribution d t.1 t.2 w)
      = (fun t : ℤ × ℤ => ((rawOverlapNs d t.1 t.2 w : ℤ) : ℚ)
          / (d.window_size_ns : ℚ) * 100) :=
    funext fun t => sliceContribution_eq_raw d hsize hstep t.1 t.2 w hw0 hwn
  rw [hfun]

theorem foldl_max_init_le : ∀ (l : List ℤ) (a : ℤ), a ≤ l.foldl max a
  | [], a => le_refl a
  | y :: t, a => le_trans (le_max_left a y) (foldl_max_init_le t (max a y))

theorem foldl_max_mem_le : ∀ (l : List ℤ) (a x : ℤ), x ∈ l → x ≤ l.foldl max a
  | [], _, x, h => absurd h (List.not_mem_nil x)
  | y :: t, a, x, h => by
    simp only [List.foldl_cons]
    rcases List.mem_cons.mp h with h | h
    · rw [h]
      exact le_trans (le_max_right a y) (foldl_max_init_le t (max a y))
    · exact foldl_max_mem_le t (max a y) x h

theorem foldl_max_cases : ∀ (l : List ℤ) (a : ℤ), l.foldl max a = a ∨ l.foldl max a ∈ l
  | [], a => Or.inl rfl
  | y :: t, a => by
    simp only [List.foldl_cons]
    rcases foldl_max_cases t (max a y) with h | h
    · rcases max_cases a y with ⟨h1, _⟩ | ⟨h1, _⟩
      · exact Or.inl (by rw [h, h1])
      · exact Or.inr (by rw [h, h1]; exact List.mem_cons_self y t)
    · exact Or.inr (List.mem_cons_of_mem y h)

theorem listMax_ge {l : List ℤ} {x : ℤ} (h : x ∈ l) : x ≤ listMax l := by
  cases l with
  | nil => cases h
  | cons y t =>
    unfold listMax
    rcases List.mem_cons.mp h with h | h
    · rw [h]
      exact foldl_max_init_le t y
    · exact foldl_max_mem_le t y x h

theorem listMax_mem {l : List ℤ} (h : l ≠ []) : listMax l ∈ l := by
  cases l with
  | nil => exact absurd rfl h
  | cons y t =>
    show t.foldl max y ∈ y :: t
    rcases foldl_max_cases t y with h2 | h2
    · rw [h2]
      exact List.mem_cons_self y t
    · exact List.mem_cons_of_mem y h2

theorem listMax_perm {l₁ l₂ : List ℤ} (hp : l₁.Perm l₂) (h : l₁ ≠ []) :
    listMax l₁ = listMax l₂ := by
  have h₂ : l₂ ≠ [] := fun hh => h (List.Perm.eq_nil (hh ▸ hp))
  apply le_antisymm
  · exact listMax_ge (hp.mem_iff.mp (listMax_mem h))
  · exact listMax_ge (hp.mem_iff.mpr (listMax_mem h₂))

theorem sum_range_ite (x : ℤ) :
    ∀ (N : ℕ) (m : ℤ), 0 ≤ m → m < (N : ℤ) →
      ((List.range N).map (fun k : ℕ => if m = (k : ℤ) then x else 0)).sum = x
  | 0, m, h0, hN => by
    exfalso
    simp only [Nat.cast_zero] at hN
    omega
  | N + 1, m, h0, hN => by
    rw [List.range_succ, List.map_append, List.sum_append]
    simp only [List.map_cons, List.map_nil, List.sum_cons, List.sum_nil]
    by_cases hm : m = (N : ℤ)
    · rw [if_pos hm]
      have hz : ((List.range N).map (fun k : ℕ => if m = (k : ℤ) then x else 0)).sum = 0 := by
        apply List.sum_eq_zero
        intro y hy
        rw [List.mem_map] at hy
        obtain ⟨k, hk, rfl⟩ := hy
        rw [List.mem_range] at hk
        rw [if_neg (by omega)]
      rw [hz]
      ring
    · rw [if_neg hm]
      rw [sum_range_ite x N m h0 (by push_cast at hN ⊢; omega)]
      ring

theorem sum_filterMap_partition (g : (ℤ × ℤ) → ℤ) (N : ℕ) :
    ∀ (L : List ((ℤ × ℤ) × ℤ)), (∀ t ∈ L, 0 ≤ t.2 ∧ t.2 < (N : ℤ)) →
      ((List.range N).map (fun k : ℕ =>
        ((L.filterMap (fun t => if t.2 = (k : ℤ) then some t.1 else none)).map g).sum)).sum
      = (L.map (fun t => g t.1)).sum
  | [], _ => by simp
  | t₀ :: L, h => by
    have ht₀ := h t₀ (List.mem_cons_self _ _)
    have hL : ∀ t ∈ L, 0 ≤ t.2 ∧ t.2 < (N : ℤ) :=
      fun t ht => h t (List.mem_cons_of_mem _ ht)
    have hpoint : ∀ k : ℕ,
        (((t₀ :: L).filterMap (fun t => if t.2 = (k : ℤ) then some t.1 else none)).map g).sum
          = (if t₀.2 = (k : ℤ) then g t₀.1 else 0)
            + ((L.filterMap (fun t => if t.2 = (k : ℤ) then some t.1 else none)).map g).sum := by
      intro k
      by_cases hk : t₀.2 = (k : ℤ)
      · rw [List.filterMap_cons_some (by rw [if_pos hk])]
        rw [List.map_cons, List.sum_cons, if_pos hk]
      · rw [List.filterMap_cons_none (by rw [if_neg hk])]
        rw [if_neg hk, zero_add]
    simp only [hpoint]
    rw [List.sum_map_add]
    rw [sum_filterMap_partition g N L hL]
    rw [sum_range_ite (g t₀.1) N t₀.2 ht₀.1 ht₀.2]
    rw [List.map_cons, List.sum_cons]

theorem calculate_cpu_load_eq (s e c : List ℤ) (dur size step : ℤ)
    (h1 : s ≠ []) (h2 : s.length = e.length) (h3 : s.length = c.length)
    (h4 : listMax c ≤ 32) (hdur : 0 < dur) (hsize : 0 < size) (hstep : 0 < step) :
    calculate_cpu_load s e c dur size step
      = cpuRowsOf s e c dur size step
        ++ [aggregateRow (cpuRowsOf s e c dur size step) size (listMax c + 1),
            timestampRow step] := by
  unfold calculate_cpu_load
  rw [if_neg (by push_neg; exact ⟨h1, h2, h3⟩)]
  rw [if_neg (by omega)]
  rw [if_neg (by omega)]

theorem cpuRowsOf_length (s e c : List ℤ) (dur size step : ℤ) :
    (cpuRowsOf s e c dur size step).length = (listMax c + 1).toNat := by
  unfold cpuRowsOf
  rw [List.length_map, List.length_range]

theorem calculate_cpu_load_length (s e c : List ℤ) (dur size step : ℤ)
    (h1 : s ≠ []) (h2 : s.length = e.length) (h3 : s.length = c.length)
    (h4 : listMax c ≤ 32) (hdur : 0 < dur) (hsize : 0 < size) (hstep : 0 < step) :
    (calculate_cpu_load s e c dur size step).length = (listMax c + 1).toNat + 2 := by
  rw [calculate_cpu_load_eq s e c dur size step h1 h2 h3 h4 hdur hsize hstep]
  rw [List.length_append, cpuRowsOf_length]
  rfl

theorem calculate_cpu_load_getD_cpu (s e c : List ℤ) (dur size step : ℤ)
    (h1 : s ≠ []) (h2 : s.length = e.length) (h3 : s.length = c.length)
    (h4 : listMax c ≤ 32) (hdur : 0 < dur) (hsize : 0 < size) (hstep : 0 < step)
    (k : ℕ) (hk : k < (listMax c + 1).toNat) :
    (calculate_cpu_load s e c dur size step).getD k zeroRow
      = cpuRow (traceDetailOf dur size step) (tasksFor s e c (k : ℤ)) := by
  rw [calculate_cpu_load_eq s e c dur size step h1 h2 h3 h4 hdur hsize hstep]
  rw [List.getD_append _ _ _ _ (by rw [cpuRowsOf_length]; exact hk)]
  unfold cpuRowsOf
  rw [List.getD_eq_getElem _ _ (by rw [List.length_map, List.length_range]; exact hk)]
  rw [List.getElem_map, List.getElem_range]

theorem calculate_cpu_load_getD_agg (s e c : List ℤ) (dur size step : ℤ)
    (h1 : s ≠ []) (h2 : s.length = e.length) (h3 : s.length = c.length)
    (h4 : listMax c ≤ 32) (hdur : 0 < dur) (hsize : 0 < size) (hstep : 0 < step) :
    (calculate_cpu_load s e c dur size step).getD (listMax c + 1).toNat zeroRow
      = aggregateRow (cpuRowsOf s e c dur size step) size (listMax c + 1) := by
  rw [calculate_cpu_load_eq s e c dur size step h1 h2 h3 h4 hdur hsize hstep]
  rw [List.getD_append_right _ _ _ _ (le_of_eq (cpuRowsOf_length s e c dur size step))]
  rw [cpuRowsOf_length, Nat.sub_self]
  rfl

theorem calculate_cpu_load_getD_ts (s e c : List ℤ) (dur size step : ℤ)
    (h1 : s ≠ []) (h2 : s.length = e.length) (h3 : s.length = c.length)
    (h4 : listMax c ≤ 32) (hdur : 0 < dur) (hsize : 0 < size) (hstep : 0 < step) :
    (calculate_cpu_load s e c dur size step).getD ((listMax c + 1).toNat + 1) zeroRow
      = timestampRow step := by
  rw [calculate_cpu_load_eq s e c dur size step h1 h2 h3 h4 hdur hsize hstep]
  rw [List.getD_append_right _ _ _ _
    (by rw [cpuRowsOf_length]; omega)]
  rw [cpuRowsOf_length]
  have hx : (listMax c + 1).toNat + 1 - (listMax c + 1).toNat = 1 := by omega
  rw [hx]
  rfl

theorem mem_slices_snd {s e c : List ℤ} {t : (ℤ × ℤ) × ℤ}
    (ht : t ∈ slices s e c) : t.2 ∈ c := by
  obtain ⟨a, b⟩ := t
  exact (List.of_mem_zip ht).2

theorem accumulated_eq_totalRaw (s e c : List ℤ) (dur size step : ℤ)
    (h2 : s.length = e.length) (h3 : s.length = c.length)
    (hnn : ∀ id ∈ c, 0 ≤ id) (hsize : 0 < size) (hstep : 0 < step)
    (w : ℤ) (hw0 : 0 ≤ w)
    (hwn : w ≤ num_windows_calc dur size step - 1) :
    ((cpuRowsOf s e c dur size step).map (fun row => row w)).sum
      = ((totalRawNs s e dur size step w : ℤ) : ℚ) / (size : ℚ) * 100 := by
  unfold cpuRowsOf
  rw [List.map_map]
  have hd : (traceDetailOf dur size step).num_windows = num_windows_calc dur size step := rfl
  have hfun : ((fun row : ℤ → ℚ => row w) ∘ (fun k : ℕ =>
        cpuRow (traceDetailOf dur size step) (tasksFor s e c (k : ℤ))))
      = (fun k : ℕ => ((rawSum (traceDetailOf dur size step) (tasksFor s e c (k : ℤ)) w : ℤ) : ℚ)
          / (size : ℚ) * 100) := by
    funext k
    exact cpuRow_eq_rawSum (traceDetailOf dur size step) hsize hstep
      (tasksFor s e c (k : ℤ)) w hw0 (by rw [hd]; exact hwn)
  rw [hfun]
  rw [sum_map_div_mul (fun k : ℕ =>
    rawSum (traceDetailOf dur size step) (tasksFor s e c (k : ℤ)) w) ((size : ℚ))]
  have hpart : ((List.range (listMax c + 1).toNat).map (fun k : ℕ =>
      rawSum (traceDetailOf dur size step) (tasksFor s e c (k : ℤ)) w)).sum
      = totalRawNs s e dur size step w := by
    unfold rawSum tasksFor totalRawNs rawSum
    rw [sum_filterMap_partition
      (fun p : ℤ × ℤ => rawOverlapNs (traceDetailOf dur size step) p.1 p.2 w)
      (listMax c + 1).toNat (slices s e c)]
    · have hmm : (slices s e c).map
          (fun t => rawOverlapNs (traceDetailOf dur size step) t.1.1 t.1.2 w)
          = ((slices s e c).map Prod.fst).map
            (fun p : ℤ × ℤ => rawOverlapNs (traceDetailOf dur size step) p.1 p.2 w) := by
        rw [List.map_map]
        rfl
      rw [hmm]
      unfold slices
      rw [List.map_fst_zip _ c (by rw [List.length_zip]; omega)]
    · intro t ht
      have hmem := mem_slices_snd ht
      have h0 := hnn t.2 hmem
      have hle := listMax_ge hmem
      have hcast : (((listMax c + 1).toNat : ℤ)) = listMax c + 1 :=
        Int.toNat_of_nonneg (by omega)
      constructor
      · exact h0
      · omega
  rw [hpart]

theorem traceDetailOf_duration (a b c : ℤ) : (traceDetailOf a b c).trace_duration_ns = a := rfl

theorem traceDetailOf_size (a b c : ℤ) : (traceDetailOf a b c).window_size_ns = b := rfl

theorem traceDetailOf_step (a b c : ℤ) : (traceDetailOf a b c).window_step_ns = c := rfl

theorem traceDetailOf_nw (a b c : ℤ) :
    (traceDetailOf a b c).num_windows = num_windows_calc a b c := rfl

theorem aggregateRow_def (rows : List (ℤ → ℚ)) (size N w : ℤ) :
    aggregateRow rows size N w
      = min ((rows.map (fun row => row w)).sum) (((size * N : ℤ) : ℚ))
        / (((size * N : ℤ) : ℚ)) * 100 := rfl

theorem rawOverlapNs_nonneg (d : TraceDetail) (S E w : ℤ) :
    0 ≤ rawOverlapNs d S E w := by
  rw [rawOverlapNs_def]
  split <;> omega

theorem rawSum_nonneg (d : TraceDetail) (tasks : List (ℤ × ℤ)) (w : ℤ) :
    0 ≤ rawSum d tasks w := by
  unfold rawSum
  apply List.sum_nonneg
  intro x hx
  rw [List.mem_map] at hx
  obtain ⟨t, _, rfl⟩ := hx
  exact rawOverlapNs_nonneg d t.1 t.2 w

theorem mem_touched_range (d : TraceDetail) {s e w : ℤ} (hs : 0 ≤ s) (hse : s < e)
    (he : e ≤ d.trace_duration_ns) :
    w ∈ touchedWindows d s e ↔
      max 0 (i_start_of d s) ≤ w ∧ w ≤ min (i_end_of d e) (d.num_windows - 1) := by
  rw [touchedWindows_def]
  rw [if_neg (by omega : ¬ (d.trace_duration_ns ≤ s ∨ e ≤ 0))]
  rw [max_eq_right hs, min_eq_right he]
  rw [if_neg (by omega : ¬ e ≤ s)]
  by_cases hc : min (i_end_of d e) (d.num_windows - 1) < max 0 (i_start_of d s)
  · rw [if_pos hc]
    simp only [List.not_mem_nil, false_iff]
    omega
  · rw [if_neg hc]
    exact mem_intRange

theorem sliceContribution_pos (d : TraceDetail) (hsize : 0 < d.window_size_ns)
    (hstep : 0 < d.window_step_ns) {s e w : ℤ} (hs : 0 ≤ s) (hse : s < e)
    (he : e ≤ d.trace_duration_ns) (hw0 : 0 ≤ w) (hwn : w ≤ d.num_windows - 1)
    (hmem : w ∈ touchedWindows d s e) :
    0 < sliceContribution d s e w := by
  have hov := (mem_touchedWindows d hsize hstep hs hse he hw0 hwn).mp hmem
  unfold sliceContribution
  rw [if_pos hmem]
  rw [max_eq_right hs, min_eq_right he]
  rw [windowContribution_def]
  rw [if_neg (by omega)]
  apply mul_pos _ (by norm_num : (0:ℚ) < 100)
  apply div_pos
  · exact_mod_cast (by omega :
      (0:ℤ) < min e (w * d.window_step_ns + d.window_size_ns)
        - max s (w * d.window_step_ns))
  · exact_mod_cast hsize

/-- C6: for an already-clamped non-empty interval, the accumulation touches
exactly the window indices from `i_start` to `i_end` inclusive (clamped into
`[0, num_windows - 1]`), and no window when the clamped range is empty. -/
theorem claim_C6 (d : TraceDetail) (hsize : 0 < d.window_size_ns)
    (hstep : 0 < d.window_step_ns) (s e : ℤ) (hs : 0 ≤ s) (hse : s < e)
    (he : e ≤ d.trace_duration_ns) (buf : ℤ → ℚ) (w : ℤ) (hw0 : 0 ≤ w)
    (hwn : w ≤ d.num_windows - 1) :
    calculate_one_slice d s e buf w ≠ buf w ↔
      max 0 (i_start_of d s) ≤ w ∧ w ≤ min (i_end_of d e) (d.num_windows - 1) := by
  rw [calculate_one_slice_apply]
  rw [← mem_touched_range d hs hse he]
  constructor
  · intro hne
    by_contra hnm
    apply hne
    have hz : sliceContribution d s e w = 0 := by
      unfold sliceContribution
      rw [if_neg hnm]
    rw [hz, add_zero]
  · intro hmem
    have hpos := sliceContribution_pos d hsize hstep hs hse he hw0 hwn hmem
    intro heq
    have : sliceContribution d s e w = 0 := by linarith [add_right_cancel (a := buf w) (b := sliceContribution d s e w) (c := 0)]
    linarith

/-- C7: an interval wholly outside the trace, or empty after clamping,
leaves the buffer unchanged; otherwise the slice behaves exactly as its
portion clamped to `[0, trace_duration_ns)`. -/
theorem claim_C7 (d : TraceDetail) (hdur : 0 < d.trace_duration_ns)
    (s e : ℤ) (buf : ℤ → ℚ) :
    ((d.trace_duration_ns ≤ s ∨ e ≤ 0) → calculate_one_slice d s e buf = buf)
    ∧ (min d.trace_duration_ns e ≤ max 0 s → calculate_one_slice d s e buf = buf)
    ∧ calculate_one_slice d s e buf
        = calculate_one_slice d (max 0 s) (min d.trace_duration_ns e) buf := by
  have hempty : ∀ S E : ℤ, touchedWindows d S E = [] →
      calculate_one_slice d S E buf = buf := by
    intro S E hT
    rw [calculate_one_slice_def, hT]
    rfl
  have hout : (d.trace_duration_ns ≤ s ∨ e ≤ 0) → calculate_one_slice d s e buf = buf := by
    intro hg
    exact hempty s e (by rw [touchedWindows_def, if_pos hg])
  have hdeg : min d.trace_duration_ns e ≤ max 0 s →
      calculate_one_slice d s e buf = buf := by
    intro hse
    by_cases hg : d.trace_duration_ns ≤ s ∨ e ≤ 0
    · exact hout hg
    · exact hempty s e (by rw [touchedWindows_def, if_neg hg, if_pos hse])
  refine ⟨hout, hdeg, ?_⟩
  by_cases hg : d.trace_duration_ns ≤ s ∨ e ≤ 0
  · rw [hout hg]
    have hg2 : d.trace_duration_ns ≤ max 0 s ∨ min d.trace_duration_ns e ≤ 0 := by omega
    have hT : touchedWindows d (max 0 s) (min d.trace_duration_ns e) = [] := by
      rw [touchedWindows_def, if_pos hg2]
    rw [hempty _ _ hT]
  · rw [calculate_one_slice_def, calculate_one_slice_def]
    rw [touchedWindows_clamp d s e hg]
    have h1 : max 0 (max 0 s) = max 0 s := by omega
    have h2 : min d.trace_duration_ns (min d.trace_duration_ns e)
        = min d.trace_duration_ns e := by omega
    rw [h1, h2]

/-- C10: every window index visited by the accumulation loop lies in
`[0, num_windows)`, so the checked `at(w)` access never faults. -/
theorem claim_C10 (dur size step : ℤ) (hdur : 0 < dur) (hsize : 0 < size)
    (hstep : 0 < step) (s e w : ℤ)
    (hw : w ∈ touchedWindows (traceDetailOf dur size step) s e) :
    0 ≤ w ∧ w < num_windows_calc dur size step := by
  rw [touchedWindows_def] at hw
  rw [traceDetailOf_duration, traceDetailOf_nw] at hw
  by_cases hg1 : dur ≤ s ∨ e ≤ 0
  · rw [if_pos hg1] at hw
    exact absurd hw (List.not_mem_nil w)
  · rw [if_neg hg1] at hw
    by_cases hg2 : min dur e ≤ max 0 s
    · rw [if_pos hg2] at hw
      exact absurd hw (List.not_mem_nil w)
    · rw [if_neg hg2] at hw
      by_cases hg3 : min (i_end_of (traceDetailOf dur size step) (min dur e))
          (num_windows_calc dur size step - 1)
          < max 0 (i_start_of (traceDetailOf dur size step) (max 0 s))
      · rw [if_pos hg3] at hw
        exact absurd hw (List.not_mem_nil w)
      · rw [if_neg hg3] at hw
        rw [mem_intRange] at hw
        omega

/-- C8: the last row of the grid holds `w * window_step_ns` at window `w`,
independent of interval content. -/
theorem claim_C8 (s e c : List ℤ) (dur size step : ℤ)
    (h1 : s ≠ []) (h2 : s.length = e.length) (h3 : s.length = c.length)
    (h4 : listMax c ≤ 32) (hdur : 0 < dur) (hsize : 0 < size) (hstep : 0 < step)
    (w : ℤ) :
    (calculate_cpu_load s e c dur size step).getD
        ((calculate_cpu_load s e c dur size step).length - 1) zeroRow w
      = ((w * step : ℤ) : ℚ) := by
  rw [calculate_cpu_load_length s e c dur size step h1 h2 h3 h4 hdur hsize hstep]
  have hidx : (listMax c + 1).toNat + 2 - 1 = (listMax c + 1).toNat + 1 := by omega
  rw [hidx]
  rw [calculate_cpu_load_getD_ts s e c dur size step h1 h2 h3 h4 hdur hsize hstep]
  rfl

/-- C5 (amended): the result is the empty grid exactly when the input is
empty, the sequences mismatch, the maximal cpu id exceeds 32, or a window
parameter is non-positive; no partial grid is ever returned. -/
theorem claim_C5 (s e c : List ℤ) (dur size step : ℤ)
    (hnn : ∀ id ∈ c, 0 ≤ id) :
    (calculate_cpu_load s e c dur size step = [] ↔
      s = [] ∨ s.length ≠ e.length ∨ s.length ≠ c.length ∨ 32 < listMax c
        ∨ step ≤ 0 ∨ size ≤ 0 ∨ dur ≤ 0) := by
  constructor
  · intro hemp
    by_contra hcon
    push_neg at hcon
    obtain ⟨g1, g2, g3, g4, g5, g6, g7⟩ := hcon
    rw [calculate_cpu_load_eq s e c dur size step g1 g2 g3 (by omega) (by omega)
      (by omega) (by omega)] at hemp
    exact List.append_ne_nil_of_right_ne_nil _ (by simp) hemp
  · intro h
    unfold calculate_cpu_load
    by_cases k1 : s = [] ∨ s.length ≠ e.length ∨ s.length ≠ c.length
    · rw [if_pos k1]
    · rw [if_neg k1]
      by_cases k2 : 32 < listMax c
      · rw [if_pos k2]
      · rw [if_neg k2]
        have k3 : step ≤ 0 ∨ size ≤ 0 ∨ dur ≤ 0 := by tauto
        rw [if_pos k3]

/-- C3 (amended): the grid has `max_cpu_id + 3` rows, cpu identifiers are
used directly as row indexes (no dense compaction). -/
theorem claim_C3 (s e c : List ℤ) (dur size step : ℤ)
    (h1 : s ≠ []) (h2 : s.length = e.length) (h3 : s.length = c.length)
    (hnn : ∀ id ∈ c, 0 ≤ id) (h4 : listMax c ≤ 32)
    (hdur : 0 < dur) (hsize : 0 < size) (hstep : 0 < step) :
    (calculate_cpu_load s e c dur size step).length = (listMax c).toNat + 3
    ∧ ∀ id ∈ c, (calculate_cpu_load s e c dur size step).getD id.toNat zeroRow
        = cpuRow (traceDetailOf dur size step) (tasksFor s e c id) := by
  have hc : c ≠ [] := by
    intro hcn
    rw [hcn] at h3
    simp only [List.length_nil] at h3
    exact h1 (List.length_eq_zero.mp h3)
  have hmax0 : 0 ≤ listMax c := hnn _ (listMax_mem hc)
  constructor
  · rw [calculate_cpu_load_length s e c dur size step h1 h2 h3 h4 hdur hsize hstep]
    omega
  · intro id hid
    have hid0 := hnn id hid
    have hidm := listMax_ge hid
    have hk : id.toNat < (listMax c + 1).toNat := by omega
    rw [calculate_cpu_load_getD_cpu s e c dur size step h1 h2 h3 h4 hdur hsize hstep
      id.toNat hk]
    rw [Int.toNat_of_nonneg hid0]

/-- C2 (amended): a per-cpu cell is the unclamped percentage
`rawSum * 100 / window_size_ns`: non-negative, at most `100` exactly when the
summed overlap fits the window, and strictly above `100` when it exceeds it
(no clamping). -/
theorem claim_C2 (s e c : List ℤ) (dur size step : ℤ)
    (h1 : s ≠ []) (h2 : s.length = e.length) (h3 : s.length = c.length)
    (hnn : ∀ id ∈ c, 0 ≤ id) (h4 : listMax c ≤ 32)
    (hdur : 0 < dur) (hsize : 0 < size) (hstep : 0 < step)
    (cpu : ℤ) (hc0 : 0 ≤ cpu) (hcm : cpu ≤ listMax c)
    (w : ℤ) (hw0 : 0 ≤ w) (hw : w < num_windows_calc dur size step) :
    (calculate_cpu_load s e c dur size step).getD cpu.toNat zeroRow w
        = ((rawSum (traceDetailOf dur size step) (tasksFor s e c cpu) w : ℤ) : ℚ)
          / (size : ℚ) * 100
    ∧ 0 ≤ (calculate_cpu_load s e c dur size step).getD cpu.toNat zeroRow w
    ∧ (rawSum (traceDetailOf dur size step) (tasksFor s e c cpu) w ≤ size →
        (calculate_cpu_load s e c dur size step).getD cpu.toNat zeroRow w ≤ 100)
    ∧ (size < rawSum (traceDetailOf dur size step) (tasksFor s e c cpu) w →
        100 < (calculate_cpu_load s e c dur size step).getD cpu.toNat zeroRow w) := by
  have hk : cpu.toNat < (listMax c + 1).toNat := by omega
  have hval : (calculate_cpu_load s e c dur size step).getD cpu.toNat zeroRow w
      = ((rawSum (traceDetailOf dur size step) (tasksFor s e c cpu) w : ℤ) : ℚ)
        / (size : ℚ) * 100 := by
    rw [calculate_cpu_load_getD_cpu s e c dur size step h1 h2 h3 h4 hdur hsize hstep
      cpu.toNat hk]
    rw [Int.toNat_of_nonneg hc0]
    rw [cpuRow_eq_rawSum (traceDetailOf dur size step)
      (by rw [traceDetailOf_size]; exact hsize)
      (by rw [traceDetailOf_step]; exact hstep)
      (tasksFor s e c cpu) w hw0 (by rw [traceDetailOf_nw]; omega)]
    rw [traceDetailOf_size]
  have hsq : (0:ℚ) < (size : ℚ) := by exact_mod_cast hsize
  have hr0 : (0:ℤ) ≤ rawSum (traceDetailOf dur size step) (tasksFor s e c cpu) w :=
    rawSum_nonneg _ _ _
  refine ⟨hval, ?_, ?_, ?_⟩
  · rw [hval]
    apply mul_nonneg _ (by norm_num : (0:ℚ) ≤ 100)
    exact div_nonneg (by exact_mod_cast hr0) (le_of_lt hsq)
  · intro hle
    rw [hval]
    have hle' : ((rawSum (traceDetailOf dur size step) (tasksFor s e c cpu) w : ℤ) : ℚ)
        ≤ (size : ℚ) := by exact_mod_cast hle
    calc ((rawSum (traceDetailOf dur size step) (tasksFor s e c cpu) w : ℤ) : ℚ)
          / (size : ℚ) * 100
        ≤ 1 * 100 := by
          apply mul_le_mul_of_nonneg_right _ (by norm_num : (0:ℚ) ≤ 100)
          exact (div_le_one hsq).mpr hle'
      _ = 100 := one_mul 100
  · intro hlt
    rw [hval]
    have hlt' : (size : ℚ)
        < ((rawSum (traceDetailOf dur size step) (tasksFor s e c cpu) w : ℤ) : ℚ) := by
      exact_mod_cast hlt
    calc (100:ℚ) = 1 * 100 := (one_mul 100).symm
      _ < ((rawSum (traceDetailOf dur size step) (tasksFor s e c cpu) w : ℤ) : ℚ)
          / (size : ℚ) * 100 := by
        apply mul_lt_mul_of_pos_right _ (by norm_num : (0:ℚ) < 100)
        exact (one_lt_div hsq).mpr hlt'

/-- C1 (amended): the aggregate cell equals
`min(total_percent, window_size_ns * num_cpus) / (window_size_ns * num_cpus) * 100`
where `total_percent = totalRawNs * 100 / window_size_ns` is the sum of the
per-cpu percentage values, not the raw nanoseconds. -/
theorem claim_C1 (s e c : List ℤ) (dur size step : ℤ)
    (h1 : s ≠ []) (h2 : s.length = e.length) (h3 : s.length = c.length)
    (hnn : ∀ id ∈ c, 0 ≤ id) (h4 : listMax c ≤ 32)
    (hdur : 0 < dur) (hsize : 0 < size) (hstep : 0 < step)
    (w : ℤ) (hw0 : 0 ≤ w) (hw : w < num_windows_calc dur size step) :
    (calculate_cpu_load s e c dur size step).getD (listMax c + 1).toNat zeroRow w
      = min (((totalRawNs s e dur size step w : ℤ) : ℚ) / (size : ℚ) * 100)
          (((size * (listMax c + 1) : ℤ) : ℚ))
        / (((size * (listMax c + 1) : ℤ) : ℚ)) * 100 := by
  rw [calculate_cpu_load_getD_agg s e c dur size step h1 h2 h3 h4 hdur hsize hstep]
  rw [aggregateRow_def]
  rw [accumulated_eq_totalRaw s e c dur size step h2 h3 hnn hsize hstep w hw0 (by omega)]

/-- C9 (amended): the routing loop indexes the executor pool directly with
the raw identifier: it stays inside the pool exactly when every identifier
is non-negative, and intervals with an in-pool identifier are never dropped
(each is routed to that cpu's task list). -/
theorem claim_C9 (s e c : List ℤ) (hc : c ≠ []) :
    (routingIndexOk c ↔ ∀ id ∈ c, 0 ≤ id)
    ∧ ∀ t ∈ slices s e c, t.1 ∈ tasksFor s e c t.2 := by
  constructor
  · constructor
    · intro h id hid
      exact (h id hid).1
    · intro h id hid
      refine ⟨h id hid, ?_⟩
      have := listMax_ge hid
      omega
  · intro t ht
    unfold tasksFor
    rw [List.mem_filterMap]
    exact ⟨t, ht, by rw [if_pos rfl]⟩

/-- C4: permuting the input interval records (keeping each record's
start/end/cpu together) yields an identical result grid. -/
theorem claim_C4 (s₁ e₁ c₁ s₂ e₂ c₂ : List ℤ) (dur size step : ℤ)
    (h2a : s₁.length = e₁.length) (h3a : s₁.length = c₁.length)
    (h2b : s₂.length = e₂.length) (h3b : s₂.length = c₂.length)
    (hperm : (slices s₁ e₁ c₁).Perm (slices s₂ e₂ c₂)) :
    calculate_cpu_load s₁ e₁ c₁ dur size step
      = calculate_cpu_load s₂ e₂ c₂ dur size step := by
  have hlen1 : (slices s₁ e₁ c₁).length = s₁.length := by
    unfold slices
    rw [List.length_zip, List.length_zip]
    omega
  have hlen2 : (slices s₂ e₂ c₂).length = s₂.length := by
    unfold slices
    rw [List.length_zip, List.length_zip]
    omega
  have hslen : s₁.length = s₂.length := by
    have := hperm.length_eq
    omega
  by_cases hs1 : s₁ = []
  · have hs2 : s₂ = [] := by
      apply List.length_eq_zero.mp
      rw [hs1] at hslen
      simp only [List.length_nil] at hslen
      omega
    unfold calculate_cpu_load
    rw [if_pos (Or.inl hs1), if_pos (Or.inl hs2)]
  · have hs2 : s₂ ≠ [] := by
      intro h
      apply hs1
      apply List.length_eq_zero.mp
      rw [h] at hslen
      simp only [List.length_nil] at hslen
      omega
    have hmapc : ∀ (sa ea ca : List ℤ), sa.length = ea.length → sa.length = ca.length →
        (slices sa ea ca).map Prod.snd = ca := by
      intro sa ea ca hA hB
      unfold slices
      apply List.map_snd_zip
      rw [List.length_zip]
      omega
    have hcperm : c₁.Perm c₂ := by
      rw [← hmapc s₁ e₁ c₁ h2a h3a, ← hmapc s₂ e₂ c₂ h2b h3b]
      exact hperm.map Prod.snd
    have hc1 : c₁ ≠ [] := by
      intro h
      apply hs1
      apply List.length_eq_zero.mp
      rw [h] at h3a
      simp only [List.length_nil] at h3a
      omega
    have hmax : listMax c₁ = listMax c₂ := listMax_perm hcperm hc1
    have hrows : cpuRowsOf s₁ e₁ c₁ dur size step = cpuRowsOf s₂ e₂ c₂ dur size step := by
      unfold cpuRowsOf
      rw [hmax]
      have hfun : (fun k : ℕ => cpuRow (traceDetailOf dur size step)
            (tasksFor s₁ e₁ c₁ (k : ℤ)))
          = (fun k : ℕ => cpuRow (traceDetailOf dur size step)
            (tasksFor s₂ e₂ c₂ (k : ℤ))) := by
        funext k
        funext v
        rw [cpuRow_eq_sum, cpuRow_eq_sum]
        exact ((hperm.filterMap
          (fun t => if t.2 = (k : ℤ) then some t.1 else none)).map
          (fun t : ℤ × ℤ =>
            sliceContribution (traceDetailOf dur size step) t.1 t.2 v)).sum_eq
      rw [hfun]
    have g1 : ¬ (s₁ = [] ∨ s₁.length ≠ e₁.length ∨ s₁.length ≠ c₁.length) := by
      push_neg
      exact ⟨hs1, h2a, h3a⟩
    have g2 : ¬ (s₂ = [] ∨ s₂.length ≠ e₂.length ∨ s₂.length ≠ c₂.length) := by
      push_neg
      exact ⟨hs2, h2b, h3b⟩
    unfold calculate_cpu_load
    rw [if_neg g1, if_neg g2, hmax, hrows]

/-- C1 counterexample: one 500 ns slice on one cpu, `window_size_ns = 1000`,
one window.  The code returns `5` for the aggregate cell while the claimed
formula gives `50`: the merge pass divides already-percentage values by
nanoseconds. -/
theorem claim_C1_counterexample :
    (calculate_cpu_load [0] [500] [0] 1000 1000 1000).getD 1 zeroRow 0
      ≠ specAggregate [0] [500] [0] 1000 1000 1000 0 := by
  have h1 : (calculate_cpu_load [0] [500] [0] 1000 1000 1000).getD 1 zeroRow 0 = 5 := by
    norm_num [calculate_cpu_load, cpuRowsOf, listMax, cpuRow, tasksFor, slices,
      calculate_one_slice, touchedWindows, i_start_of, i_end_of, ceil_div,
      num_windows_calc, traceDetailOf, intRange, windowContribution, aggregateRow,
      timestampRow, zeroRow, Function.update_apply, List.range_succ,
      List.filterMap_cons, List.filterMap_nil, List.foldl_cons, List.foldl_nil,
      List.map_cons, List.map_nil, List.sum_cons, List.sum_nil, List.range_zero,
      List.getD, List.getElem?_cons_succ, List.getElem?_cons_zero]
  have h2 : specAggregate [0] [500] [0] 1000 1000 1000 0 = 50 := by
    norm_num [specAggregate, totalRawNs, rawSum, rawOverlapNs, traceDetailOf,
      listMax, num_windows_calc, List.zip_cons_cons, List.zip_nil_right,
      List.map_cons, List.map_nil, List.sum_cons, List.sum_nil,
      List.foldl_cons, List.foldl_nil]
  rw [h1, h2]
  norm_num

/-- C2 counterexample: two fully-overlapping full-window slices on cpu 0
leave `200` in the per-cpu cell — the per-cpu rows are never clamped to
`100`. -/
theorem claim_C2_counterexample :
    (calculate_cpu_load [0, 0] [1000, 1000] [0, 0] 1000 1000 1000).getD 0 zeroRow 0 = 200
    ∧ ¬ (calculate_cpu_load [0, 0] [1000, 1000] [0, 0] 1000 1000 1000).getD 0 zeroRow 0
        ≤ 100 := by
  have h1 : (calculate_cpu_load [0, 0] [1000, 1000] [0, 0] 1000 1000 1000).getD 0
      zeroRow 0 = 200 := by
    norm_num [calculate_cpu_load, cpuRowsOf, listMax, cpuRow, tasksFor, slices,
      calculate_one_slice, touchedWindows, i_start_of, i_end_of, ceil_div,
      num_windows_calc, traceDetailOf, intRange, windowContribution, aggregateRow,
      timestampRow, zeroRow, Function.update_apply, List.range_succ,
      List.filterMap_cons, List.filterMap_nil, List.foldl_cons, List.foldl_nil,
      List.map_cons, List.map_nil, List.sum_cons, List.sum_nil, List.range_zero,
      List.getD, List.getElem?_cons_succ, List.getElem?_cons_zero,
      (by decide : ([0, 0] : List ℤ) ≠ [])]
  refine ⟨h1, ?_⟩
  rw [h1]
  norm_num

/-- C3 counterexample: a single interval on cpu id `3` produces a grid of
`6` rows (`max_cpu_id + 3`), not `distinct cpu count + 2 = 3`: identifiers
are used as direct row indexes, not densely compacted. -/
theorem claim_C3_counterexample :
    (calculate_cpu_load [0] [10] [3] 100 10 10).length ≠ distinctCpuCount [3] + 2 := by
  have h1 : (calculate_cpu_load [0] [10] [3] 100 10 10).length = 6 := by
    rw [calculate_cpu_load_length [0] [10] [3] 100 10 10 (by decide) rfl rfl
      (by decide) (by decide) (by decide) (by decide)]
    decide
  rw [h1]
  norm_num [distinctCpuCount]

/-- C5 counterexample: the input `cpu id = 33` is well-formed by the claim's
list of invalid conditions (non-empty, matched lengths, positive window
parameters), yet the code returns the empty grid because of its
undocumented `max_cpu_id > 32` cap. -/
theorem claim_C5_counterexample :
    calculate_cpu_load [0] [10] [33] 100 10 10 = []
    ∧ ¬ (([0] : List ℤ) = [] ∨ ([0] : List ℤ).length ≠ ([10] : List ℤ).length
        ∨ ([0] : List ℤ).length ≠ ([33] : List ℤ).length
        ∨ (10:ℤ) ≤ 0 ∨ (10:ℤ) ≤ 0 ∨ (100:ℤ) ≤ 0) := by
  constructor
  · norm_num [calculate_cpu_load, listMax]
  · norm_num

/-- C9 counterexample: with cpu ids `[0, -1]` the pool holds a single
executor, yet the routing loop indexes it with `-1`: the access is outside
the allocated pool and nothing is dropped. -/
theorem claim_C9_counterexample : ¬ routingIndexOk [0, -1] := by decide

theorem claim_C1_witness :
    (calculate_cpu_load [150] [250] [0] 1000 100 100).getD (listMax [0] + 1).toNat zeroRow 1
      = min (((totalRawNs [150] [250] 1000 100 100 1 : ℤ) : ℚ) / ((100 : ℤ) : ℚ) * 100)
          (((100 * (listMax [0] + 1) : ℤ) : ℚ))
        / (((100 * (listMax [0] + 1) : ℤ) : ℚ)) * 100 :=
  claim_C1 [150] [250] [0] 1000 100 100 (by decide) rfl rfl (by decide) (by decide)
    (by decide) (by decide) (by decide) 1 (by decide) (by decide)

theorem claim_C2_witness :
    (calculate_cpu_load [150] [250] [0] 1000 100 100).getD (0:ℤ).toNat zeroRow 1
        = ((rawSum (traceDetailOf 1000 100 100) (tasksFor [150] [250] [0] 0) 1 : ℤ) : ℚ)
          / ((100:ℤ) : ℚ) * 100
    ∧ 0 ≤ (calculate_cpu_load [150] [250] [0] 1000 100 100).getD (0:ℤ).toNat zeroRow 1
    ∧ (rawSum (traceDetailOf 1000 100 100) (tasksFor [150] [250] [0] 0) 1 ≤ 100 →
        (calculate_cpu_load [150] [250] [0] 1000 100 100).getD (0:ℤ).toNat zeroRow 1 ≤ 100)
    ∧ (100 < rawSum (traceDetailOf 1000 100 100) (tasksFor [150] [250] [0] 0) 1 →
        100 < (calculate_cpu_load [150] [250] [0] 1000 100 100).getD (0:ℤ).toNat zeroRow 1) :=
  claim_C2 [150] [250] [0] 1000 100 100 (by decide) rfl rfl (by decide) (by decide)
    (by decide) (by decide) (by decide) 0 (by decide) (by decide) 1 (by decide) (by decide)

theorem claim_C3_witness :
    (calculate_cpu_load [150] [250] [0] 1000 100 100).length = (listMax [0]).toNat + 3
    ∧ ∀ id ∈ ([0] : List ℤ),
        (calculate_cpu_load [150] [250] [0] 1000 100 100).getD id.toNat zeroRow
          = cpuRow (traceDetailOf 1000 100 100) (tasksFor [150] [250] [0] id) :=
  claim_C3 [150] [250] [0] 1000 100 100 (by decide) rfl rfl (by decide) (by decide)
    (by decide) (by decide) (by decide)

theorem claim_C4_witness :
    calculate_cpu_load [100, 300] [200, 400] [0, 1] 1000 100 100
      = calculate_cpu_load [300, 100] [400, 200] [1, 0] 1000 100 100 :=
  claim_C4 [100, 300] [200, 400] [0, 1] [300, 100] [400, 200] [1, 0] 1000 100 100
    rfl rfl rfl rfl (by decide)

theorem claim_C5_witness :
    (calculate_cpu_load [150] [250] [0] 1000 100 100 = [] ↔
      ([150] : List ℤ) = [] ∨ ([150] : List ℤ).length ≠ ([250] : List ℤ).length
        ∨ ([150] : List ℤ).length ≠ ([0] : List ℤ).length ∨ 32 < listMax [0]
        ∨ (100:ℤ) ≤ 0 ∨ (100:ℤ) ≤ 0 ∨ (1000:ℤ) ≤ 0) :=
  claim_C5 [150] [250] [0] 1000 100 100 (by decide)

theorem claim_C6_witness :
    (calculate_one_slice (traceDetailOf 1000 100 100) 150 250 zeroRow 1 ≠ zeroRow 1 ↔
      max 0 (i_start_of (traceDetailOf 1000 100 100) 150) ≤ 1
        ∧ 1 ≤ min (i_end_of (traceDetailOf 1000 100 100) 250)
            ((traceDetailOf 1000 100 100).num_windows - 1)) :=
  claim_C6 (traceDetailOf 1000 100 100) (by decide) (by decide) 150 250 (by decide)
    (by decide) (by decide) zeroRow 1 (by decide) (by decide)

theorem claim_C7_witness :
    (((traceDetailOf 1000 100 100).trace_duration_ns ≤ -50 ∨ (60:ℤ) ≤ 0) →
        calculate_one_slice (traceDetailOf 1000 100 100) (-50) 60 zeroRow = zeroRow)
    ∧ (min (traceDetailOf 1000 100 100).trace_duration_ns 60 ≤ max 0 (-50) →
        calculate_one_slice (traceDetailOf 1000 100 100) (-50) 60 zeroRow = zeroRow)
    ∧ calculate_one_slice (traceDetailOf 1000 100 100) (-50) 60 zeroRow
        = calculate_one_slice (traceDetailOf 1000 100 100) (max 0 (-50))
            (min (traceDetailOf 1000 100 100).trace_duration_ns 60) zeroRow :=
  claim_C7 (traceDetailOf 1000 100 100) (by decide) (-50) 60 zeroRow

theorem claim_C8_witness :
    (calculate_cpu_load [150] [250] [0] 1000 100 100).getD
        ((calculate_cpu_load [150] [250] [0] 1000 100 100).length - 1) zeroRow 3
      = ((3 * 100 : ℤ) : ℚ) :=
  claim_C8 [150] [250] [0] 1000 100 100 (by decide) rfl rfl (by decide) (by decide)
    (by decide) (by decide) 3

theorem claim_C9_witness :
    (routingIndexOk [0, 1, 1] ↔ ∀ id ∈ ([0, 1, 1] : List ℤ), 0 ≤ id)
    ∧ ∀ t ∈ slices [5, 6, 7] [6, 7, 8] [0, 1, 1],
        t.1 ∈ tasksFor [5, 6, 7] [6, 7, 8] [0, 1, 1] t.2 :=
  claim_C9 [5, 6, 7] [6, 7, 8] [0, 1, 1] (by decide)

theorem claim_C10_witness : 0 ≤ (1:ℤ) ∧ (1:ℤ) < num_windows_calc 1000 100 100 :=
  claim_C10 1000 100 100 (by decide) (by decide) (by decide) 150 250 1 (by decide)
